import Mathlib

/-!
Verification of `aws-utils`: a shallow embedding of
`packages/aws-client-factory/src/factory.ts` and
`packages/aws-common-utils/src/constants.ts`.

JavaScript objects are modelled as ordered association lists of string keys
and JSON-like values; client instances live on an explicit heap (a list of
client records indexed by allocation order), so that JavaScript reference
equality becomes equality of heap indices.  `json-stable-stringify` is a
serializer that recursively sorts object keys and drops `undefined`-valued
entries; since the serialized strings of two values coincide exactly when
their canonical (key-sorted, `undefined`-dropped) forms coincide, the
memoization key is modelled by that canonical form directly.
-/

namespace AwsUtils

/-- A JSON-like JavaScript value.  Arrays and objects are encoded as cons
chains inside the single inductive (rather than via nested `List`) so that
all recursion over values is structural and kernel-reducible. -/
inductive JVal where
  | null
  | undef
  | bool (b : Bool)
  | num (n : Int)
  | str (s : String)
  | arrNil
  | arrCons (hd tl : JVal)
  | objNil
  | objCons (key : String) (val tl : JVal)
deriving DecidableEq, Repr

/-- A JavaScript object at the top level: an ordered list of fields.
JavaScript objects never hold two fields with the same key. -/
abbrev Obj := List (String × JVal)

/-- Association-list lookup (JavaScript property read). -/
def alookup {α β : Type} [DecidableEq α] : List (α × β) → α → Option β
  | [], _ => none
  | (k, v) :: tl, k' => if k' = k then some v else alookup tl k'

/-- Replace the value stored under a key, keeping the key's position. -/
def aupdate {α β : Type} [DecidableEq α] (l : List (α × β)) (k : α) (v : β) :
    List (α × β) :=
  l.map fun p => if p.1 = k then (k, v) else p

/-- JavaScript property assignment: update an existing key in place,
otherwise append the new key at the end. -/
def aset {α β : Type} [DecidableEq α] (l : List (α × β)) (k : α) (v : β) :
    List (α × β) :=
  if (alookup l k).isSome then aupdate l k v else l ++ [(k, v)]

/-- JavaScript object spread `{...a, ...b}`: fields of `a` in order with
values overridden by `b`, then the remaining fields of `b` in order. -/
def spread (a : Obj) : Obj → Obj
  | [] => a
  | (k, v) :: tl => spread (aset a k v) tl

/-- Code-unit comparison of strings, as used by the default JavaScript
array sort inside `json-stable-stringify` (`String.decidableLE` of Lean is
avoided only because it does not kernel-reduce). -/
def charListLe : List Char → List Char → Bool
  | [], _ => true
  | _ :: _, [] => false
  | c :: cs, d :: ds =>
    if c.val < d.val then true
    else if d.val < c.val then false
    else charListLe cs ds

def strLe (a b : String) : Bool := charListLe a.data b.data

/-- Insert a field into a key-sorted field chain (insertion sort step). -/
def insertField (k : String) (v : JVal) : JVal → JVal
  | .objCons k' v' tl =>
    if strLe k k' then .objCons k v (.objCons k' v' tl)
    else .objCons k' v' (insertField k v tl)
  | other => .objCons k v other

/-- Canonical form underlying `json-stable-stringify`: object keys are
sorted recursively, object fields whose value serializes to nothing
(`undefined`) are dropped, `undefined` array elements become `null`, and a
top-level `undefined` serializes to nothing (`none`). -/
def canon : JVal → Option JVal
  | .null => some .null
  | .undef => none
  | .bool b => some (.bool b)
  | .num n => some (.num n)
  | .str s => some (.str s)
  | .arrNil => some .arrNil
  | .arrCons hd tl => some (.arrCons ((canon hd).getD .null) ((canon tl).getD .arrNil))
  | .objNil => some .objNil
  | .objCons k v tl =>
    match canon v with
    | none => some ((canon tl).getD .objNil)
    | some v' => some (insertField k v' ((canon tl).getD .objNil))
termination_by structural x => x

/-- Canonical form of a top-level options object. -/
def canonObj : Obj → JVal
  | [] => .objNil
  | (k, v) :: tl =>
    match canon v with
    | none => canonObj tl
    | some v' => insertField k v' (canonObj tl)

/-- The lodash `memoize` cache key produced by the resolver
`opts => stableStringify(opts)`: an absent (or `undefined`) argument gives
the key `undefined`, an object argument gives its canonical serialization. -/
def memoKey (opts : Option Obj) : Option JVal := opts.map canonObj

/-! ## `aws-common-utils/src/constants.ts` -/

def SERVICE_PRINCIPALS : List (String × String) := [("sns", "sns.amazonaws.com")]

def REGIONS : List String :=
  ["us-east-1", "us-east-2", "us-west-2", "us-west-1", "ca-central-1",
   "sa-east-1", "amazonaws-us-gov", "eu-west-1", "eu-west-2", "eu-west-3",
   "eu-central-1", "ap-southeast-1", "ap-northeast-1", "ap-northeast-3",
   "ap-southeast-2", "ap-northeast-2", "ap-south-1", "cn-north-1",
   "cn-northwest-1"]

/-! ## `aws-client-factory/src/factory.ts` -/

/-- An SDK client instance.  `ctorOpts` records the options object passed to
the underlying `aws-sdk` constructor.  A `DocumentClient` wraps an underlying
`DynamoDB` service object (`underlying`) and itself exposes no `config`
object; every plain service client has a `config` with a
`systemClockOffset` property (`ownClockOffset` until the property is
redefined to alias the global one, `clockSynced`). -/
structure ClientObj where
  service : String
  ctorOpts : Obj
  isDocClient : Bool
  underlying : Option Nat
  hasConfig : Bool
  clockSynced : Bool
  ownClockOffset : Int
deriving DecidableEq, Repr

/-- Process-wide state: the heap of constructed clients (reference equality
is index equality), the `AWS.config` parameter map, and the process-wide
`AWS.config.systemClockOffset` value (modelled as its own field). -/
structure St where
  heap : List ClientObj
  awsConfig : Obj
  systemClockOffset : Int
deriving DecidableEq, Repr

/-- `AWS.config.update(params)`: merges `params` into the global
configuration; a numeric `systemClockOffset` parameter sets the global
offset. -/
def awsConfigUpdate (st : St) (params : Obj) : St :=
  { st with
    awsConfig := spread st.awsConfig params
    systemClockOffset :=
      match alookup params "systemClockOffset" with
      | some (.num n) => n
      | _ => st.systemClockOffset }

/-- A freshly constructed client's `config.systemClockOffset`: taken from
the options when given, otherwise inherited from `AWS.config`. -/
def initOffset (st : St) (merged : Obj) : Int :=
  match alookup merged "systemClockOffset" with
  | some (.num n) => n
  | _ => st.systemClockOffset

def plainClient (service : String) (merged : Obj) (off : Int) : ClientObj :=
  { service := service, ctorOpts := merged, isDocClient := false,
    underlying := none, hasConfig := true, clockSynced := false,
    ownClockOffset := off }

/-- Running one underlying `aws-sdk` constructor from the `factories` table:
`new AWS.DynamoDB.DocumentClient(opts)` allocates the wrapped `DynamoDB`
service object and then the document client; every other service allocates
one plain client.  `ctorFail` is the environment's oracle for whether the
SDK constructor throws (the repository treats the SDK as opaque). -/
def constructClient (ctorFail : String → Obj → Option String) (st : St)
    (service : String) (merged : Obj) : Except String (St × Nat) :=
  match ctorFail service merged with
  | some e => .error e
  | none =>
    if service = "documentclient" then
      let uid := st.heap.length
      let svc := plainClient "dynamodb" merged (initOffset st merged)
      let wrapper : ClientObj :=
        { service := "documentclient", ctorOpts := merged, isDocClient := true,
          underlying := some uid, hasConfig := false, clockSynced := false,
          ownClockOffset := 0 }
      .ok ({ st with heap := st.heap ++ [svc, wrapper] }, uid + 1)
    else
      .ok ({ st with heap := st.heap ++ [plainClient service merged (initOffset st merged)] },
           st.heap.length)

/-- `useGlobalConfigClock(service)`: a `DocumentClient` is first unwrapped to
its underlying service object; if the (unwrapped) object has no `config`,
nothing happens; otherwise its `config.systemClockOffset` property is
redefined to read and write `AWS.config.systemClockOffset`. -/
def useGlobalConfigClock (st : St) (cid : Nat) : St :=
  match st.heap[cid]? with
  | none => st
  | some c =>
    let tid := if c.isDocClient then c.underlying.getD cid else cid
    match st.heap[tid]? with
    | none => st
    | some t =>
      if t.hasConfig then
        { st with heap := st.heap.set tid { t with clockSynced := true } }
      else st

/-- Reading `client.config.systemClockOffset` (`none` when the client has no
`config` object). -/
def readClockOffset (st : St) (cid : Nat) : Option Int :=
  match st.heap[cid]? with
  | none => none
  | some c =>
    if c.hasConfig then
      some (if c.clockSynced then st.systemClockOffset else c.ownClockOffset)
    else none

/-- Writing `client.config.systemClockOffset := v`. -/
def writeClockOffset (st : St) (cid : Nat) (v : Int) : St :=
  match st.heap[cid]? with
  | none => st
  | some c =>
    if c.hasConfig then
      if c.clockSynced then { st with systemClockOffset := v }
      else { st with heap := st.heap.set cid { c with ownClockOffset := v } }
    else st

/-- The keys of the `factories` table, in declaration order. -/
def knownServices : List String :=
  ["s3", "dynamodb", "documentclient", "dynamodbstreams", "iam", "iot",
   "sts", "sns", "sqs", "ses", "kms", "lambda", "iotdata", "xray",
   "apigateway", "cloudwatch", "cloudwatchlogs", "cloudformation"]

/-- `FACTORY_DEFAULTS = { region: process.env.AWS_REGION }`; an unset
environment variable leaves the property present with value `undefined`. -/
def FACTORY_DEFAULTS (envRegion : Option String) : Obj :=
  [("region", match envRegion with | some r => .str r | none => .undef)]

structure CreateClientsFactoryOpts where
  defaults : Option Obj
  useGlobalConfigClock : Bool
deriving DecidableEq, Repr

abbrev MemoCache := List (Option JVal × Nat)

/-- A factory object: the defaults captured by the closure, the
`useGlobalConfigClock` flag, and one lodash `memoize` cache per service
name (the caches of the memoized constructors built by `transform`). -/
structure Factory where
  defaults : Obj
  useClock : Bool
  caches : List (String × MemoCache)
deriving DecidableEq, Repr

/-- `createClientFactory(clientsOpts)`: resolves `defaults` (falling back to
`FACTORY_DEFAULTS`), performs `AWS.config.update(defaults)`, and returns the
object of memoized constructors with all memo caches empty. -/
def createClientFactory (envRegion : Option String) (st : St)
    (clientsOpts : CreateClientsFactoryOpts) : St × Factory :=
  let defaults := clientsOpts.defaults.getD (FACTORY_DEFAULTS envRegion)
  (awsConfigUpdate st defaults,
   { defaults := defaults
     useClock := clientsOpts.useGlobalConfigClock
     caches := knownServices.map fun s => (s, ([] : MemoCache)) })

/-- The oracle of an SDK whose constructors never throw. -/
def noFail : String → Obj → Option String := fun _ _ => none

/-- Calling `factory[service](opts)`.  `none` models the absent property for
an unknown service name.  A memoized constructor looks its argument up by
`stableStringify(opts)`; on a miss it runs
`factories[serviceName]({ ...defaults, ...opts })`, optionally applies
`useGlobalConfigClock`, caches and returns the client; a thrown constructor
error propagates and caches nothing. -/
def callFactory (ctorFail : String → Obj → Option String) (st : St)
    (f : Factory) (service : String) (opts : Option Obj) :
    Option (Except String (St × Factory × Nat)) :=
  match alookup f.caches service with
  | none => none
  | some cache =>
    match alookup cache (memoKey opts) with
    | some cid => some (.ok (st, f, cid))
    | none =>
      match constructClient ctorFail st service (spread f.defaults (opts.getD [])) with
      | .error e => some (.error e)
      | .ok (st1, cid) =>
        some (.ok
          ((if f.useClock then useGlobalConfigClock st1 cid else st1),
           { f with caches := aupdate f.caches service (cache ++ [(memoKey opts, cid)]) },
           cid))

/-- The object returned by `createClientCache`: the underlying factory and
the `instantiated` record (both also exposed as properties). -/
structure ClientCache where
  factory : Factory
  instantiated : List (String × Nat)
deriving DecidableEq, Repr

/-- `createClientCache(clientOpts)`: builds a factory and an object whose
service properties are lazy getters; nothing is constructed yet. -/
def createClientCache (envRegion : Option String) (st : St)
    (clientOpts : CreateClientsFactoryOpts) : St × ClientCache :=
  let p := createClientFactory envRegion st clientOpts
  (p.1, { factory := p.2, instantiated := [] })

/-- Reading `cache[service]`: the getter runs
`instantiated[method] = factory[method]()` on every read — it never consults
`instantiated` — and returns what the factory returned.  `none` models the
absent property for an unknown service name. -/
def readCache (ctorFail : String → Obj → Option String) (st : St)
    (c : ClientCache) (service : String) :
    Option (Except String (St × ClientCache × Nat)) :=
  match callFactory ctorFail st c.factory service none with
  | none => none
  | some (.error e) => some (.error e)
  | some (.ok (st1, f1, cid)) =>
    some (.ok (st1,
      { factory := f1, instantiated := aset c.instantiated service cid },
      cid))

/-! ## Reachability invariant of a factory's memo caches

Every cached instance was allocated by an earlier call (its index is below
the heap size) and distinct keys cache distinct instances. -/

def cacheBounded (st : St) (cache : MemoCache) : Prop :=
  ∀ k cid, alookup cache k = some cid → cid < st.heap.length

def cacheInjective (cache : MemoCache) : Prop :=
  ∀ k k' cid, alookup cache k = some cid → alookup cache k' = some cid → k = k'

def FactoryInv (st : St) (f : Factory) : Prop :=
  ∀ s cache, alookup f.caches s = some cache →
    cacheBounded st cache ∧ cacheInjective cache

/-! ## Concrete runs used by the witnesses -/

def stEmpty : St := { heap := [], awsConfig := [], systemClockOffset := 0 }

def emptyFactory : Factory := { defaults := [], useClock := false, caches := [] }

def okCallState : Option (Except String (St × Factory × Nat)) → St
  | some (.ok (s, _, _)) => s
  | _ => stEmpty

def okCallFactory : Option (Except String (St × Factory × Nat)) → Factory
  | some (.ok (_, f, _)) => f
  | _ => emptyFactory

def okCallId : Option (Except String (St × Factory × Nat)) → Nat
  | some (.ok (_, _, i)) => i
  | _ => 0

def okCacheState : Option (Except String (St × ClientCache × Nat)) → St
  | some (.ok (s, _, _)) => s
  | _ => stEmpty

def okCacheObj : Option (Except String (St × ClientCache × Nat)) → ClientCache
  | some (.ok (_, c, _)) => c
  | _ => { factory := emptyFactory, instantiated := [] }

def okCacheId : Option (Except String (St × ClientCache × Nat)) → Nat
  | some (.ok (_, _, i)) => i
  | _ => 0

def wDefaults : Obj := [("region", JVal.str "eu-west-1")]

def wFactoryOpts : CreateClientsFactoryOpts :=
  { defaults := some wDefaults, useGlobalConfigClock := false }

def wCreate : St × Factory := createClientFactory none stEmpty wFactoryOpts

def wA : Obj := [("a", JVal.num 1), ("b", JVal.num 2)]

def wB : Obj := [("b", JVal.num 2), ("a", JVal.num 1)]

def wCall1 : Option (Except String (St × Factory × Nat)) :=
  callFactory noFail wCreate.1 wCreate.2 "s3" (some wA)

def wCall2 : Option (Except String (St × Factory × Nat)) :=
  callFactory noFail (okCallState wCall1) (okCallFactory wCall1) "s3" (some wB)

def cexOpts : Obj := [("region", JVal.str "eu-west-1")]

def cexCall1 : Option (Except String (St × Factory × Nat)) :=
  callFactory noFail wCreate.1 wCreate.2 "s3" (some [])

def cexCall2 : Option (Except String (St × Factory × Nat)) :=
  callFactory noFail (okCallState cexCall1) (okCallFactory cexCall1) "s3" (some cexOpts)

def wA3 : Obj := [("foo", JVal.str "bar")]

def wCall3 : Option (Except String (St × Factory × Nat)) :=
  callFactory noFail wCreate.1 wCreate.2 "s3" (some wA3)

def wCall9a : Option (Except String (St × Factory × Nat)) :=
  callFactory noFail wCreate.1 wCreate.2 "sqs" none

def wCall9b : Option (Except String (St × Factory × Nat)) :=
  callFactory noFail (okCallState wCall9a) (okCallFactory wCall9a) "sqs" (some [])

def wClockSt : St :=
  { heap := [plainClient "s3" [] 5], awsConfig := [], systemClockOffset := 7 }

def wBoom : String → Obj → Option String := fun _ _ => some "boom"

def wCC : St × ClientCache := createClientCache none stEmpty wFactoryOpts

def wRead1 : Option (Except String (St × ClientCache × Nat)) :=
  readCache noFail wCC.1 wCC.2 "kms"

/-! ## Association-list lemmas -/

theorem alookup_map_const {α β : Type} [DecidableEq α] (l : List α) (c : β)
    (k : α) :
    alookup (l.map fun s => (s, c)) k = if k ∈ l then some c else none := by
  induction l with
  | nil => simp [alookup]
  | cons hd tl ih =>
    by_cases h : k = hd
    · simp [alookup, h]
    · simp [alookup, h, ih, List.mem_cons]

theorem alookup_eq_none_of_not_mem {α β : Type} [DecidableEq α]
    {l : List (α × β)} {k : α} (h : k ∉ l.map Prod.fst) : alookup l k = none := by
  induction l with
  | nil => rfl
  | cons hd tl ih =>
    simp only [List.map_cons, List.mem_cons, not_or] at h
    simp [alookup, h.1, ih h.2]

theorem alookup_cons {α β : Type} [DecidableEq α] (a : α) (b : β)
    (tl : List (α × β)) (k : α) :
    alookup ((a, b) :: tl) k = if k = a then some b else alookup tl k := rfl

theorem aupdate_cons_eq {α β : Type} [DecidableEq α] {a k : α} (b v : β)
    (tl : List (α × β)) (h : a = k) :
    aupdate ((a, b) :: tl) k v = (k, v) :: aupdate tl k v := by
  simp [aupdate, h]

theorem aupdate_cons_ne {α β : Type} [DecidableEq α] {a k : α} (b v : β)
    (tl : List (α × β)) (h : ¬ a = k) :
    aupdate ((a, b) :: tl) k v = (a, b) :: aupdate tl k v := by
  simp [aupdate, h]

theorem alookup_aupdate_self {α β : Type} [DecidableEq α] (l : List (α × β))
    (k : α) (v : β) :
    alookup (aupdate l k v) k = (alookup l k).map fun _ => v := by
  induction l with
  | nil => rfl
  | cons hd tl ih =>
    obtain ⟨a, b⟩ := hd
    by_cases h : a = k
    · subst h
      rw [aupdate_cons_eq b v tl rfl, alookup_cons, alookup_cons, if_pos rfl,
        if_pos rfl]
      rfl
    · have h' : ¬ k = a := fun he => h he.symm
      rw [aupdate_cons_ne b v tl h, alookup_cons, alookup_cons, if_neg h',
        if_neg h', ih]

theorem alookup_aupdate_ne {α β : Type} [DecidableEq α] (l : List (α × β))
    {k k' : α} (v : β) (hne : k' ≠ k) :
    alookup (aupdate l k v) k' = alookup l k' := by
  induction l with
  | nil => rfl
  | cons hd tl ih =>
    obtain ⟨a, b⟩ := hd
    by_cases h : a = k
    · subst h
      rw [aupdate_cons_eq b v tl rfl, alookup_cons, alookup_cons, if_neg hne,
        if_neg hne, ih]
    · rw [aupdate_cons_ne b v tl h, alookup_cons, alookup_cons]
      by_cases h2 : k' = a
      · rw [if_pos h2, if_pos h2]
      · rw [if_neg h2, if_neg h2, ih]

theorem alookup_append_some {α β : Type} [DecidableEq α] {l : List (α × β)}
    (l' : List (α × β)) {k : α} {v : β} (h : alookup l k = some v) :
    alookup (l ++ l') k = some v := by
  induction l with
  | nil => simp [alookup] at h
  | cons hd tl ih =>
    obtain ⟨a, b⟩ := hd
    by_cases h2 : k = a
    · simp [alookup, h2] at h ⊢
      exact h
    · simp [alookup, h2] at h ⊢
      exact ih h

theorem alookup_append_none {α β : Type} [DecidableEq α] {l : List (α × β)}
    (l' : List (α × β)) {k : α} (h : alookup l k = none) :
    alookup (l ++ l') k = alookup l' k := by
  induction l with
  | nil => rfl
  | cons hd tl ih =>
    obtain ⟨a, b⟩ := hd
    by_cases h2 : k = a
    · simp [alookup, h2] at h
    · simp [alookup, h2] at h ⊢
      exact ih h

theorem alookup_aset_self {α β : Type} [DecidableEq α] (l : List (α × β))
    (k : α) (v : β) : alookup (aset l k v) k = some v := by
  unfold aset
  by_cases h : (alookup l k).isSome
  · obtain ⟨w, hw⟩ := Option.isSome_iff_exists.mp h
    simp [h, alookup_aupdate_self, hw]
  · have hn : alookup l k = none := Option.not_isSome_iff_eq_none.mp h
    simp [h, alookup_append_none _ hn, alookup]

theorem alookup_aset_ne {α β : Type} [DecidableEq α] (l : List (α × β))
    {k k' : α} (v : β) (hne : k' ≠ k) :
    alookup (aset l k v) k' = alookup l k' := by
  unfold aset
  by_cases h : (alookup l k).isSome
  · simp [h, alookup_aupdate_ne l v hne]
  · simp only [h, if_false]
    cases hl : alookup l k' with
    | some w => exact alookup_append_some _ hl
    | none => simp [alookup_append_none _ hl, alookup, hne]

theorem alookup_spread_none {a b : Obj} {k : String}
    (h : alookup b k = none) : alookup (spread a b) k = alookup a k := by
  induction b generalizing a with
  | nil => rfl
  | cons hd tl ih =>
    obtain ⟨k0, v0⟩ := hd
    by_cases h2 : k = k0
    · simp [alookup, h2] at h
    · simp only [alookup, if_neg h2] at h
      simp only [spread]
      rw [ih h, alookup_aset_ne _ _ h2]

theorem alookup_spread_some {a b : Obj} {k : String} {v : JVal}
    (hb : (b.map Prod.fst).Nodup) (h : alookup b k = some v) :
    alookup (spread a b) k = some v := by
  induction b generalizing a with
  | nil => simp [alookup] at h
  | cons hd tl ih =>
    obtain ⟨k0, v0⟩ := hd
    simp only [List.map_cons, List.nodup_cons] at hb
    by_cases h2 : k = k0
    · subst h2
      rw [alookup_cons, if_pos rfl] at h
      have hv : v0 = v := Option.some.inj h
      subst hv
      have htl : alookup tl k = none := alookup_eq_none_of_not_mem hb.1
      simp only [spread]
      rw [alookup_spread_none htl, alookup_aset_self]
    · rw [alookup_cons, if_neg h2] at h
      simp only [spread]
      exact ih hb.2 h

/-! ## Construction and clock-sync frame lemmas -/

theorem constructClient_ok (tf : String → Obj → Option String) (st : St)
    (s : String) (m : Obj) (hok : tf s m = none) :
    ∃ st' cid, constructClient tf st s m = .ok (st', cid) ∧
      st.heap.length ≤ cid ∧ st'.heap.length = cid + 1 ∧
      (st'.heap[cid]?).map ClientObj.ctorOpts = some m ∧
      st'.awsConfig = st.awsConfig ∧
      st'.systemClockOffset = st.systemClockOffset ∧
      ∀ i < st.heap.length, st'.heap[i]? = st.heap[i]? := by
  unfold constructClient
  rw [hok]
  by_cases hdoc : s = "documentclient"
  · rw [if_pos hdoc]
    refine ⟨_, st.heap.length + 1, rfl, by omega, by simp, ?_, rfl, rfl, ?_⟩
    · rw [List.getElem?_append_right (by omega)]
      simp
    · intro i hi
      exact List.getElem?_append_left hi
  · rw [if_neg hdoc]
    refine ⟨_, st.heap.length, rfl, le_refl _, by simp, ?_, rfl, rfl, ?_⟩
    · rw [List.getElem?_concat_length]
      rfl
    · intro i hi
      exact List.getElem?_append_left hi

theorem constructClient_error (tf : String → Obj → Option String) (st : St)
    (s : String) (m : Obj) (e : String) (he : tf s m = some e) :
    constructClient tf st s m = .error e := by
  unfold constructClient
  rw [he]

theorem ugcc_heap_length (st : St) (cid : Nat) :
    (useGlobalConfigClock st cid).heap.length = st.heap.length := by
  unfold useGlobalConfigClock
  cases h1 : st.heap[cid]? with
  | none => rfl
  | some c =>
    dsimp only
    cases h2 : st.heap[if c.isDocClient then c.underlying.getD cid else cid]? with
    | none => rfl
    | some t =>
      dsimp only
      by_cases h3 : t.hasConfig = true
      · rw [if_pos h3]
        exact List.length_set st.heap _ _
      · rw [if_neg h3]

theorem ugcc_awsConfig (st : St) (cid : Nat) :
    (useGlobalConfigClock st cid).awsConfig = st.awsConfig := by
  unfold useGlobalConfigClock
  cases h1 : st.heap[cid]? with
  | none => rfl
  | some c =>
    dsimp only
    cases h2 : st.heap[if c.isDocClient then c.underlying.getD cid else cid]? with
    | none => rfl
    | some t =>
      dsimp only
      by_cases h3 : t.hasConfig = true
      · rw [if_pos h3]
      · rw [if_neg h3]

theorem ugcc_systemClockOffset (st : St) (cid : Nat) :
    (useGlobalConfigClock st cid).systemClockOffset = st.systemClockOffset := by
  unfold useGlobalConfigClock
  cases h1 : st.heap[cid]? with
  | none => rfl
  | some c =>
    dsimp only
    cases h2 : st.heap[if c.isDocClient then c.underlying.getD cid else cid]? with
    | none => rfl
    | some t =>
      dsimp only
      by_cases h3 : t.hasConfig = true
      · rw [if_pos h3]
      · rw [if_neg h3]

theorem ugcc_ctorOpts (st : St) (cid i : Nat) :
    ((useGlobalConfigClock st cid).heap[i]?).map ClientObj.ctorOpts =
      (st.heap[i]?).map ClientObj.ctorOpts := by
  unfold useGlobalConfigClock
  cases h1 : st.heap[cid]? with
  | none => rfl
  | some c =>
    dsimp only
    cases h2 : st.heap[if c.isDocClient then c.underlying.getD cid else cid]? with
    | none => rfl
    | some t =>
      dsimp only
      by_cases h3 : t.hasConfig = true
      · rw [if_pos h3]
        by_cases hi : (if c.isDocClient then c.underlying.getD cid else cid) = i
        · subst hi
          have hlt := (List.getElem?_eq_some_iff.mp h2).1
          rw [List.getElem?_set_self hlt, h2]
          rfl
        · rw [List.getElem?_set_ne hi]
      · rw [if_neg h3]

/-! ## Behaviour of one memoized constructor call -/

theorem callFactory_absent (tf : String → Obj → Option String) (st : St)
    (f : Factory) (s : String) (opts : Option Obj)
    (hc : alookup f.caches s = none) :
    callFactory tf st f s opts = none := by
  simp [callFactory, hc]

theorem callFactory_hit (tf : String → Obj → Option String) (st : St)
    {f : Factory} {s : String} {cache : MemoCache} {opts : Option Obj}
    {cid : Nat} (hc : alookup f.caches s = some cache)
    (hk : alookup cache (memoKey opts) = some cid) :
    callFactory tf st f s opts = some (.ok (st, f, cid)) := by
  simp [callFactory, hc, hk]

theorem callFactory_throw {tf : String → Obj → Option String} (st : St)
    {f : Factory} {s : String} {cache : MemoCache} {opts : Option Obj}
    {e : String} (hc : alookup f.caches s = some cache)
    (hmiss : alookup cache (memoKey opts) = none)
    (he : tf s (spread f.defaults (opts.getD [])) = some e) :
    callFactory tf st f s opts = some (.error e) := by
  simp [callFactory, hc, hmiss, constructClient_error _ _ _ _ _ he]

theorem callFactory_miss {tf : String → Obj → Option String} (st : St)
    {f : Factory} {s : String} {cache : MemoCache} {opts : Option Obj}
    (hc : alookup f.caches s = some cache)
    (hmiss : alookup cache (memoKey opts) = none)
    (hok : tf s (spread f.defaults (opts.getD [])) = none) :
    ∃ st' cid,
      callFactory tf st f s opts =
        some (.ok (st',
          { f with caches := aupdate f.caches s (cache ++ [(memoKey opts, cid)]) },
          cid)) ∧
      st.heap.length ≤ cid ∧ st'.heap.length = cid + 1 ∧
      (st'.heap[cid]?).map ClientObj.ctorOpts =
        some (spread f.defaults (opts.getD [])) ∧
      st'.awsConfig = st.awsConfig ∧
      st'.systemClockOffset = st.systemClockOffset ∧
      ∀ i < st.heap.length,
        (st'.heap[i]?).map ClientObj.ctorOpts =
          (st.heap[i]?).map ClientObj.ctorOpts := by
  obtain ⟨st1, cid, hcc, hle, hlen, hopts, hcfg, hoff, hframe⟩ :=
    constructClient_ok tf st s _ hok
  refine ⟨(if f.useClock then useGlobalConfigClock st1 cid else st1), cid,
    ?_, hle, ?_, ?_, ?_, ?_, ?_⟩
  · simp [callFactory, hc, hmiss, hcc]
  · by_cases h : f.useClock <;> simp [h, ugcc_heap_length, hlen]
  · by_cases h : f.useClock <;> simp [h, ugcc_ctorOpts, hopts]
  · by_cases h : f.useClock <;> simp [h, ugcc_awsConfig, hcfg]
  · by_cases h : f.useClock <;> simp [h, ugcc_systemClockOffset, hoff]
  · intro i hi
    by_cases h : f.useClock
    · rw [if_pos h, ugcc_ctorOpts, hframe i hi]
    · rw [if_neg h, hframe i hi]

theorem alookup_nil {α β : Type} [DecidableEq α] (k : α) :
    alookup ([] : List (α × β)) k = none := rfl

theorem noFail_none (s : String) (m : Obj) : noFail s m = none := rfl

theorem readCache_eq (tf : String → Obj → Option String) (st : St)
    (c : ClientCache) (service : String) :
    readCache tf st c service =
      match callFactory tf st c.factory service none with
      | none => none
      | some (.error e) => some (.error e)
      | some (.ok (st1, f1, cid)) =>
        some (.ok (st1,
          { factory := f1, instantiated := aset c.instantiated service cid },
          cid)) := rfl

/-! ## The memo-cache invariant holds for every reachable factory -/

theorem alookup_single {α β : Type} [DecidableEq α] (k0 k : α) (v : β) :
    alookup [(k0, v)] k = if k = k0 then some v else none := rfl

theorem alookup_append_single_cases {α β : Type} [DecidableEq α]
    {l : List (α × β)} {k0 k : α} {v0 v : β}
    (h : alookup (l ++ [(k0, v0)]) k = some v) :
    alookup l k = some v ∨ (alookup l k = none ∧ k = k0 ∧ v = v0) := by
  cases hl : alookup l k with
  | some w =>
    rw [alookup_append_some _ hl] at h
    exact .inl h
  | none =>
    rw [alookup_append_none _ hl, alookup_single] at h
    by_cases hk : k = k0
    · rw [if_pos hk] at h
      exact .inr ⟨rfl, hk, (Option.some.inj h).symm⟩
    · rw [if_neg hk] at h
      cases h

theorem factoryInv_create (envRegion : Option String) (st : St)
    (copts : CreateClientsFactoryOpts) (st1 : St) (f : Factory)
    (hcreate : createClientFactory envRegion st copts = (st1, f)) :
    FactoryInv st1 f := by
  have hsnd := congrArg Prod.snd hcreate
  simp only [createClientFactory] at hsnd
  have hf : f.caches = knownServices.map fun s => (s, ([] : MemoCache)) := by
    rw [← hsnd]
  intro s cache hc
  rw [hf, alookup_map_const] at hc
  by_cases hs : s ∈ knownServices
  · rw [if_pos hs] at hc
    obtain rfl : ([] : MemoCache) = cache := Option.some.inj hc
    exact ⟨fun _ _ h => (nomatch h), fun _ _ _ h _ => (nomatch h)⟩
  · rw [if_neg hs] at hc
    cases hc

theorem factoryInv_step {tf : String → Obj → Option String} {st st' : St}
    {f f' : Factory} {s : String} {opts : Option Obj} {cid : Nat}
    (hinv : FactoryInv st f)
    (hcall : callFactory tf st f s opts = some (.ok (st', f', cid))) :
    FactoryInv st' f' := by
  cases hc : alookup f.caches s with
  | none =>
    rw [callFactory_absent tf st f s opts hc] at hcall
    cases hcall
  | some cache =>
    cases hk : alookup cache (memoKey opts) with
    | some cid0 =>
      rw [callFactory_hit tf st hc hk] at hcall
      simp only [Option.some.injEq, Except.ok.injEq, Prod.mk.injEq] at hcall
      obtain ⟨rfl, rfl, rfl⟩ := hcall
      exact hinv
    | none =>
      cases he : tf s (spread f.defaults (opts.getD [])) with
      | some e =>
        rw [callFactory_throw st hc hk he] at hcall
        cases hcall
      | none =>
        obtain ⟨st1, cid1, heq, hle, hlen, _, _, _, _⟩ :=
          callFactory_miss st hc hk he
        rw [heq] at hcall
        simp only [Option.some.injEq, Except.ok.injEq, Prod.mk.injEq] at hcall
        obtain ⟨rfl, rfl, rfl⟩ := hcall
        intro s2 cache2 hc2
        simp only at hc2
        by_cases hs2 : s2 = s
        · subst hs2
          rw [alookup_aupdate_self, hc] at hc2
          obtain rfl : cache ++ [(memoKey opts, cid1)] = cache2 :=
            Option.some.inj hc2
          have hbnd := (hinv s2 cache hc).1
          have hinj := (hinv s2 cache hc).2
          constructor
          · intro k c hkc
            rcases alookup_append_single_cases hkc with hold | ⟨_, _, rfl⟩
            · have := hbnd k c hold
              omega
            · omega
          · intro k k' c h1 h2
            rcases alookup_append_single_cases h1 with hold1 | ⟨hn1, hk1, hv1⟩ <;>
              rcases alookup_append_single_cases h2 with hold2 | ⟨hn2, hk2, hv2⟩
            · exact hinj k k' c hold1 hold2
            · have := hbnd k c hold1
              omega
            · have := hbnd k' c hold2
              omega
            · rw [hk1, hk2]
        · rw [alookup_aupdate_ne _ _ hs2] at hc2
          have hbnd := (hinv s2 cache2 hc2).1
          refine ⟨fun k c hkc => ?_, (hinv s2 cache2 hc2).2⟩
          have := hbnd k c hkc
          omega

/-! ## Claims -/

/-- C8: the region constant list `REGIONS` contains no duplicate entries,
and it contains the entry `"us-east-1"`. -/
theorem REGIONS_nodup_and_contains_us_east_1 :
    REGIONS.Nodup ∧ "us-east-1" ∈ REGIONS := by decide

/-- C5: `useGlobalConfigClock` first unwraps a document-style client to its
underlying service object (`tid`); if the unwrapped object has no
configuration object the state is unchanged; otherwise, afterwards, reading
the configuration's clock-offset property returns the process-wide global
offset and writing it updates the process-wide global offset. -/
theorem useGlobalConfigClock_clock_sync_contract
    (st : St) (cid tid : Nat) (c t : ClientObj)
    (hc : st.heap[cid]? = some c)
    (htid : tid = if c.isDocClient then c.underlying.getD cid else cid)
    (ht : st.heap[tid]? = some t) :
    (t.hasConfig = false → useGlobalConfigClock st cid = st) ∧
    (t.hasConfig = true →
      readClockOffset (useGlobalConfigClock st cid) tid =
        some (useGlobalConfigClock st cid).systemClockOffset ∧
      ∀ v : Int,
        (writeClockOffset (useGlobalConfigClock st cid) tid v).systemClockOffset
            = v ∧
        readClockOffset (writeClockOffset (useGlobalConfigClock st cid) tid v)
            tid = some v) := by
  subst htid
  have hugcc : useGlobalConfigClock st cid =
      if t.hasConfig then
        { st with
          heap := st.heap.set (if c.isDocClient then c.underlying.getD cid else cid)
            { t with clockSynced := true } }
      else st := by
    unfold useGlobalConfigClock
    rw [hc]
    dsimp only
    rw [ht]
  constructor
  · intro hfalse
    rw [hugcc, hfalse]
    simp
  · intro htrue
    rw [hugcc, if_pos htrue]
    have hlt : (if c.isDocClient then c.underlying.getD cid else cid) <
        st.heap.length := (List.getElem?_eq_some_iff.mp ht).1
    have hget := List.getElem?_set_self (a := { t with clockSynced := true }) hlt
    rw [htrue] at hget
    refine ⟨?_, fun v => ⟨?_, ?_⟩⟩
    · simp [readClockOffset, hget, htrue]
    · simp [writeClockOffset, hget, htrue]
    · simp [writeClockOffset, readClockOffset, hget, htrue]

/-- C5 witness: a concrete plain client gets its clock synced: after the
call, reading its offset returns the global one and writing `3` updates the
global value, observable through the client's configuration. -/
theorem useGlobalConfigClock_clock_sync_contract_witness :
    (wClockSt.heap[0]? = some (plainClient "s3" [] 5)) ∧
    ((plainClient "s3" [] 5).hasConfig = true) ∧
    (readClockOffset (useGlobalConfigClock wClockSt 0) 0 =
      some (useGlobalConfigClock wClockSt 0).systemClockOffset ∧
     ((writeClockOffset (useGlobalConfigClock wClockSt 0) 0 3).systemClockOffset
         = 3 ∧
      readClockOffset (writeClockOffset (useGlobalConfigClock wClockSt 0) 0 3) 0
         = some 3)) := by
  have h := useGlobalConfigClock_clock_sync_contract wClockSt 0 0
    (plainClient "s3" [] 5) (plainClient "s3" [] 5) rfl rfl rfl
  exact ⟨rfl, rfl, (h.2 rfl).1, (h.2 rfl).2 3⟩

/-- C7: creating a factory updates the process-wide SDK configuration with
the factory's resolved defaults once, at creation time (no client is
constructed then: the heap is untouched); any later successful constructor
call leaves the process-wide configuration unchanged. -/
theorem createClientFactory_updates_config_once
    (envRegion : Option String) (st st1 : St) (copts : CreateClientsFactoryOpts)
    (f : Factory)
    (hcreate : createClientFactory envRegion st copts = (st1, f)) :
    st1.awsConfig =
      spread st.awsConfig (copts.defaults.getD (FACTORY_DEFAULTS envRegion)) ∧
    st1.heap = st.heap ∧
    ∀ tf service opts st2 f2 cid,
      callFactory tf st1 f service opts = some (.ok (st2, f2, cid)) →
      st2.awsConfig = st1.awsConfig ∧
      st2.systemClockOffset = st1.systemClockOffset := by
  have hfst := congrArg Prod.fst hcreate
  simp only [createClientFactory] at hfst
  refine ⟨?_, ?_, ?_⟩
  · rw [← hfst]
    rfl
  · rw [← hfst]
    rfl
  · intro tf service opts st2 f2 cid hcall
    cases hc : alookup f.caches service with
    | none =>
      rw [callFactory_absent tf st1 f service opts hc] at hcall
      cases hcall
    | some cache =>
      cases hk : alookup cache (memoKey opts) with
      | some cid0 =>
        rw [callFactory_hit tf st1 hc hk] at hcall
        simp only [Option.some.injEq, Except.ok.injEq, Prod.mk.injEq] at hcall
        obtain ⟨rfl, rfl, rfl⟩ := hcall
        exact ⟨rfl, rfl⟩
      | none =>
        cases he : tf service (spread f.defaults (opts.getD [])) with
        | some e =>
          rw [callFactory_throw st1 hc hk he] at hcall
          cases hcall
        | none =>
          obtain ⟨stx, cidx, heq, _, _, _, hcfg, hoff, _⟩ :=
            callFactory_miss st1 hc hk he
          rw [heq] at hcall
          simp only [Option.some.injEq, Except.ok.injEq, Prod.mk.injEq] at hcall
          obtain ⟨rfl, rfl, rfl⟩ := hcall
          exact ⟨hcfg, hoff⟩

/-- C7 witness: concrete factory creation merges the defaults into the
global configuration, touches no heap, and a subsequent client construction
leaves the global configuration as it was. -/
theorem createClientFactory_updates_config_once_witness :
    (createClientFactory none stEmpty wFactoryOpts = (wCreate.1, wCreate.2)) ∧
    wCreate.1.awsConfig =
      spread stEmpty.awsConfig (wFactoryOpts.defaults.getD (FACTORY_DEFAULTS none)) ∧
    wCreate.1.heap = stEmpty.heap ∧
    (okCallState wCall1).awsConfig = wCreate.1.awsConfig := by
  have h := createClientFactory_updates_config_once none stEmpty wCreate.1
    wFactoryOpts wCreate.2 rfl
  refine ⟨rfl, h.1, h.2.1, ?_⟩
  exact (h.2.2 noFail "s3" (some wA) (okCallState wCall1) (okCallFactory wCall1)
    (okCallId wCall1) rfl).1

/-- C2 counterexample: with defaults `{region: "eu-west-1"}`, calling with
`{}` and with `{region: "eu-west-1"}` passes the identical merged
configuration to the underlying constructor both times (so the merged
configurations canonicalize identically), yet the two calls create two
distinct memo-cache entries (the `"s3"` cache ends up with two entries) and
return two distinct instances — the cache is therefore not keyed by the
merged configuration. -/
theorem factory_cache_key_ignores_merged_config_cex :
    okCallId cexCall1 = 0 ∧ okCallId cexCall2 = 1 ∧
    ((okCallState cexCall2).heap[0]?).map ClientObj.ctorOpts = some wDefaults ∧
    ((okCallState cexCall2).heap[1]?).map ClientObj.ctorOpts = some wDefaults ∧
    canonObj (spread wCreate.2.defaults []) =
      canonObj (spread wCreate.2.defaults cexOpts) ∧
    (alookup (okCallFactory cexCall2).caches "s3").map List.length = some 2 ∧
    okCallId cexCall1 ≠ okCallId cexCall2 := by decide

/-- C2 (amended): each memoization cache entry is keyed by the canonicalized
(stably-serialized, key-order-independent) representation of the per-call
options mapping alone — the defaults and the environment region are merged
into the constructor argument but do not enter the key — so two calls whose
per-call options canonicalize identically hit the same cache entry: the
second call returns the same instance and changes neither the state nor the
factory. -/
theorem factory_cache_keyed_by_per_call_options
    (tf tf2 : String → Obj → Option String) (st st2 st3 : St)
    (f f2 f3 : Factory) (service : String) (A B : Obj) (id1 id2 : Nat)
    (h1 : callFactory tf st f service (some A) = some (.ok (st2, f2, id1)))
    (h2 : callFactory tf2 st2 f2 service (some B) = some (.ok (st3, f3, id2)))
    (hAB : canonObj A = canonObj B) :
    id2 = id1 ∧ st3 = st2 ∧ f3 = f2 := by
  have hkey : memoKey (some B) = memoKey (some A) := by
    simp [memoKey, hAB]
  cases hc : alookup f.caches service with
  | none =>
    rw [callFactory_absent tf st f service (some A) hc] at h1
    cases h1
  | some cache =>
    cases hk : alookup cache (memoKey (some A)) with
    | some cid0 =>
      rw [callFactory_hit tf st hc hk] at h1
      simp only [Option.some.injEq, Except.ok.injEq, Prod.mk.injEq] at h1
      obtain ⟨rfl, rfl, rfl⟩ := h1
      have hk2 : alookup cache (memoKey (some B)) = some cid0 := by
        rw [hkey]
        exact hk
      rw [callFactory_hit tf2 st hc hk2] at h2
      simp only [Option.some.injEq, Except.ok.injEq, Prod.mk.injEq] at h2
      obtain ⟨rfl, rfl, rfl⟩ := h2
      exact ⟨rfl, rfl, rfl⟩
    | none =>
      cases he : tf service (spread f.defaults ((some A).getD [])) with
      | some e =>
        rw [callFactory_throw st hc hk he] at h1
        cases h1
      | none =>
        obtain ⟨stx, cidx, heq, _, _, _, _, _, _⟩ := callFactory_miss st hc hk he
        rw [heq] at h1
        simp only [Option.some.injEq, Except.ok.injEq, Prod.mk.injEq] at h1
        obtain ⟨rfl, rfl, rfl⟩ := h1
        have hc2 : alookup
            ({ f with caches :=
                aupdate f.caches service (cache ++ [(memoKey (some A), cidx)]) }
              : Factory).caches service =
            some (cache ++ [(memoKey (some A), cidx)]) := by
          simp only
          rw [alookup_aupdate_self, hc]
          rfl
        have hk2 : alookup (cache ++ [(memoKey (some A), cidx)])
            (memoKey (some B)) = some cidx := by
          rw [hkey, alookup_append_none _ hk, alookup_single, if_pos rfl]
        rw [callFactory_hit tf2 stx hc2 hk2] at h2
        simp only [Option.some.injEq, Except.ok.injEq, Prod.mk.injEq] at h2
        obtain ⟨rfl, rfl, rfl⟩ := h2
        exact ⟨rfl, rfl, rfl⟩

/-- C2 witness: two concrete calls on one factory whose per-call options
differ only in key order return the same instance. -/
theorem factory_cache_keyed_by_per_call_options_witness :
    (callFactory noFail wCreate.1 wCreate.2 "s3" (some wA) =
      some (.ok (okCallState wCall1, okCallFactory wCall1, okCallId wCall1))) ∧
    (callFactory noFail (okCallState wCall1) (okCallFactory wCall1) "s3"
        (some wB) =
      some (.ok (okCallState wCall2, okCallFactory wCall2, okCallId wCall2))) ∧
    canonObj wA = canonObj wB ∧
    okCallId wCall2 = okCallId wCall1 := by
  refine ⟨rfl, rfl, by decide, ?_⟩
  exact (factory_cache_keyed_by_per_call_options noFail noFail wCreate.1
    (okCallState wCall1) (okCallState wCall2) wCreate.2 (okCallFactory wCall1)
    (okCallFactory wCall2) "s3" wA wB (okCallId wCall1) (okCallId wCall2)
    rfl rfl (by decide)).1

/-- C6: a constructor error propagates unmodified through the memoized
factory function, and in that case nothing is cached for the failing key (a
retry whose constructor succeeds still allocates a fresh instance); service
names are not validated: an unknown name is simply an absent property on the
factory and on the cache object. -/
theorem factory_error_propagation_and_unknown_service
    (tf : String → Obj → Option String) (st : St) (f : Factory)
    (service : String) (cache : MemoCache) (opts : Option Obj) (e : String)
    (hc : alookup f.caches service = some cache)
    (hmiss : alookup cache (memoKey opts) = none)
    (he : tf service (spread f.defaults (opts.getD [])) = some e) :
    callFactory tf st f service opts = some (.error e) ∧
    (∀ st2 f2 cid,
      callFactory noFail st f service opts = some (.ok (st2, f2, cid)) →
      st.heap.length ≤ cid) ∧
    (∀ (envRegion : Option String) (st0 : St)
        (copts : CreateClientsFactoryOpts) (s' : String),
      s' ∉ knownServices →
      alookup (createClientFactory envRegion st0 copts).2.caches s' = none ∧
      callFactory tf st0 (createClientFactory envRegion st0 copts).2 s' opts =
        none ∧
      readCache tf st0 (createClientCache envRegion st0 copts).2 s' = none) := by
  refine ⟨callFactory_throw st hc hmiss he, ?_, ?_⟩
  · intro st2 f2 cid hcall
    obtain ⟨stx, cidx, heq, hle, _, _, _, _, _⟩ :=
      callFactory_miss st hc hmiss (rfl :
        noFail service (spread f.defaults (opts.getD [])) = none)
    rw [heq] at hcall
    simp only [Option.some.injEq, Except.ok.injEq, Prod.mk.injEq] at hcall
    obtain ⟨rfl, rfl, rfl⟩ := hcall
    exact hle
  · intro envRegion st0 copts s' hs'
    have habs : alookup (createClientFactory envRegion st0 copts).2.caches s' =
        none := by
      rw [show (createClientFactory envRegion st0 copts).2.caches =
          knownServices.map fun s => (s, ([] : MemoCache)) from rfl,
        alookup_map_const, if_neg hs']
    refine ⟨habs, callFactory_absent _ _ _ _ _ habs, ?_⟩
    unfold readCache
    rw [show (createClientCache envRegion st0 copts).2.factory =
        (createClientFactory envRegion st0 copts).2 from rfl,
      callFactory_absent _ _ _ _ _ habs]

/-- C6 witness: a throwing constructor's error surfaces unchanged from a
concrete factory, and the unknown name `"xyz"` is absent on both the factory
and the cache. -/
theorem factory_error_propagation_and_unknown_service_witness :
    (alookup wCreate.2.caches "s3" = some []) ∧
    (wBoom "s3" (spread wCreate.2.defaults ((some ([] : Obj)).getD [])) =
      some "boom") ∧
    callFactory wBoom wCreate.1 wCreate.2 "s3" (some []) =
      some (.error "boom") ∧
    alookup (createClientFactory none stEmpty wFactoryOpts).2.caches "xyz" =
      none ∧
    callFactory wBoom stEmpty (createClientFactory none stEmpty wFactoryOpts).2
      "xyz" (some []) = none ∧
    readCache wBoom stEmpty (createClientCache none stEmpty wFactoryOpts).2
      "xyz" = none := by
  have h := factory_error_propagation_and_unknown_service wBoom wCreate.1
    wCreate.2 "s3" [] (some []) "boom" rfl rfl rfl
  have h2 := h.2.2 none stEmpty wFactoryOpts "xyz" (by decide)
  exact ⟨rfl, rfl, h.1, h2.1, h2.2.1, h2.2.2⟩

/-- C1: on any reachable factory (memo caches bounded and injective, as
established by `factoryInv_create` and `factoryInv_step`), two calls to a
service's memoized constructor with option mappings `A` and `B` return the
identical instance exactly when `A` and `B` canonicalize identically under
the stable, key-order-independent serialization; otherwise the instances
are distinct. -/
theorem factory_memoize_same_instance_iff
    (st st2 st3 : St) (f f2 f3 : Factory) (service : String) (A B : Obj)
    (id1 id2 : Nat) (hinv : FactoryInv st f)
    (h1 : callFactory noFail st f service (some A) = some (.ok (st2, f2, id1)))
    (h2 : callFactory noFail st2 f2 service (some B) =
      some (.ok (st3, f3, id2))) :
    id1 = id2 ↔ canonObj A = canonObj B := by
  cases hc : alookup f.caches service with
  | none =>
    rw [callFactory_absent noFail st f service (some A) hc] at h1
    cases h1
  | some cache =>
    have hbnd := (hinv service cache hc).1
    have hinj := (hinv service cache hc).2
    cases hk1 : alookup cache (memoKey (some A)) with
    | some c1 =>
      rw [callFactory_hit noFail st hc hk1] at h1
      simp only [Option.some.injEq, Except.ok.injEq, Prod.mk.injEq] at h1
      obtain ⟨rfl, rfl, rfl⟩ := h1
      cases hk2 : alookup cache (memoKey (some B)) with
      | some c2 =>
        rw [callFactory_hit noFail st hc hk2] at h2
        simp only [Option.some.injEq, Except.ok.injEq, Prod.mk.injEq] at h2
        obtain ⟨rfl, rfl, rfl⟩ := h2
        constructor
        · intro hid
          have hkey := hinj _ _ _ hk1 (hid ▸ hk2)
          simpa [memoKey] using hkey
        · intro hAB
          have hkeq : memoKey (some A) = memoKey (some B) := by
            simp [memoKey, hAB]
          rw [← hkeq, hk1] at hk2
          exact Option.some.inj hk2
      | none =>
        obtain ⟨stx, cidx, heq, hle, hlen, _, _, _, _⟩ :=
          callFactory_miss st hc hk2 (rfl :
            noFail service (spread f.defaults ((some B).getD [])) = none)
        rw [heq] at h2
        simp only [Option.some.injEq, Except.ok.injEq, Prod.mk.injEq] at h2
        obtain ⟨rfl, rfl, rfl⟩ := h2
        have hblt := hbnd _ _ hk1
        constructor
        · intro hid
          exact absurd hid (by omega)
        · intro hAB
          have hkeq : memoKey (some A) = memoKey (some B) := by
            simp [memoKey, hAB]
          rw [← hkeq, hk1] at hk2
          cases hk2
    | none =>
      obtain ⟨stx, cidx, heq, hle, hlen, _, _, _, _⟩ :=
        callFactory_miss st hc hk1 (rfl :
          noFail service (spread f.defaults ((some A).getD [])) = none)
      rw [heq] at h1
      simp only [Option.some.injEq, Except.ok.injEq, Prod.mk.injEq] at h1
      obtain ⟨rfl, rfl, rfl⟩ := h1
      have hc2 : alookup
          ({ f with caches :=
              aupdate f.caches service (cache ++ [(memoKey (some A), cidx)]) }
            : Factory).caches service =
          some (cache ++ [(memoKey (some A), cidx)]) := by
        simp only
        rw [alookup_aupdate_self, hc]
        rfl
      by_cases hAB : canonObj A = canonObj B
      · have hkeq : memoKey (some B) = memoKey (some A) := by
          simp [memoKey, hAB]
        have hk2 : alookup (cache ++ [(memoKey (some A), cidx)])
            (memoKey (some B)) = some cidx := by
          rw [hkeq, alookup_append_none _ hk1, alookup_single, if_pos rfl]
        rw [callFactory_hit noFail stx hc2 hk2] at h2
        simp only [Option.some.injEq, Except.ok.injEq, Prod.mk.injEq] at h2
        obtain ⟨rfl, rfl, rfl⟩ := h2
        exact iff_of_true rfl hAB
      · have hkne : ¬ memoKey (some B) = memoKey (some A) := by
          rw [show memoKey (some B) = some (canonObj B) from rfl,
            show memoKey (some A) = some (canonObj A) from rfl]
          intro h
          exact hAB (Option.some.inj h).symm
        have hk2 : alookup (cache ++ [(memoKey (some A), cidx)])
            (memoKey (some B)) = alookup cache (memoKey (some B)) := by
          cases hcb : alookup cache (memoKey (some B)) with
          | some w => exact alookup_append_some _ hcb
          | none => rw [alookup_append_none _ hcb, alookup_single, if_neg hkne]
        cases hcb : alookup cache (memoKey (some B)) with
        | some w =>
          rw [callFactory_hit noFail stx hc2 (hk2.trans hcb)] at h2
          simp only [Option.some.injEq, Except.ok.injEq, Prod.mk.injEq] at h2
          obtain ⟨rfl, rfl, rfl⟩ := h2
          have := hbnd _ _ hcb
          exact iff_of_false (by omega) hAB
        | none =>
          obtain ⟨sty, cidy, heq2, hle2, _, _, _, _, _⟩ :=
            callFactory_miss stx hc2 (hk2.trans hcb) (noFail_none _ _)
          rw [heq2] at h2
          simp only [Option.some.injEq, Except.ok.injEq, Prod.mk.injEq] at h2
          obtain ⟨rfl, rfl, rfl⟩ := h2
          exact iff_of_false (by omega) hAB

/-- C1 witness: on a concrete factory (whose invariant comes from
`factoryInv_create`), two calls with key-permuted options return the same
instance, and the iff evaluates accordingly. -/
theorem factory_memoize_same_instance_iff_witness :
    (callFactory noFail wCreate.1 wCreate.2 "s3" (some wA) =
      some (.ok (okCallState wCall1, okCallFactory wCall1, okCallId wCall1))) ∧
    (callFactory noFail (okCallState wCall1) (okCallFactory wCall1) "s3"
        (some wB) =
      some (.ok (okCallState wCall2, okCallFactory wCall2, okCallId wCall2))) ∧
    (okCallId wCall1 = okCallId wCall2 ↔ canonObj wA = canonObj wB) := by
  refine ⟨rfl, rfl, ?_⟩
  exact factory_memoize_same_instance_iff wCreate.1 (okCallState wCall1)
    (okCallState wCall2) wCreate.2 (okCallFactory wCall1) (okCallFactory wCall2)
    "s3" wA wB (okCallId wCall1) (okCallId wCall2)
    (factoryInv_create none stEmpty wFactoryOpts wCreate.1 wCreate.2 rfl)
    rfl rfl

/-- C3: on a cache miss, the options object passed to the underlying SDK
constructor is the factory's defaults spread with the per-call options;
per-call options win on conflicting keys and defaults fill the rest; the
factory's defaults are the caller-supplied ones, falling back to the
environment-region `FACTORY_DEFAULTS` when none were supplied. -/
theorem factory_passes_merged_defaults_to_ctor
    (envRegion : Option String) (st st1 st2 : St)
    (copts : CreateClientsFactoryOpts) (f f2 : Factory) (service : String)
    (cache : MemoCache) (opts : Option Obj) (cid : Nat)
    (tf : String → Obj → Option String)
    (hcreate : createClientFactory envRegion st copts = (st1, f))
    (hc : alookup f.caches service = some cache)
    (hmiss : alookup cache (memoKey opts) = none)
    (hcall : callFactory tf st1 f service opts = some (.ok (st2, f2, cid)))
    (hA : ((opts.getD []).map Prod.fst).Nodup) :
    f.defaults = copts.defaults.getD (FACTORY_DEFAULTS envRegion) ∧
    (st2.heap[cid]?).map ClientObj.ctorOpts =
      some (spread f.defaults (opts.getD [])) ∧
    (∀ k v, alookup (opts.getD []) k = some v →
      alookup (spread f.defaults (opts.getD [])) k = some v) ∧
    (∀ k, alookup (opts.getD []) k = none →
      alookup (spread f.defaults (opts.getD [])) k = alookup f.defaults k) := by
  have hsnd := congrArg Prod.snd hcreate
  simp only [createClientFactory] at hsnd
  refine ⟨?_, ?_, ?_, ?_⟩
  · rw [← hsnd]
  · cases he : tf service (spread f.defaults (opts.getD [])) with
    | some e =>
      rw [callFactory_throw st1 hc hmiss he] at hcall
      cases hcall
    | none =>
      obtain ⟨stx, cidx, heq, _, _, hopts, _, _, _⟩ :=
        callFactory_miss st1 hc hmiss he
      rw [heq] at hcall
      simp only [Option.some.injEq, Except.ok.injEq, Prod.mk.injEq] at hcall
      obtain ⟨rfl, rfl, rfl⟩ := hcall
      exact hopts
  · intro k v hkv
    exact alookup_spread_some hA hkv
  · intro k hk
    exact alookup_spread_none hk

/-- C3 witness: a concrete call receives the defaults merged with the
per-call options; the per-call key is present and the default region is
preserved. -/
theorem factory_passes_merged_defaults_to_ctor_witness :
    (createClientFactory none stEmpty wFactoryOpts = (wCreate.1, wCreate.2)) ∧
    (alookup wCreate.2.caches "s3" = some []) ∧
    ((okCallState wCall3).heap[okCallId wCall3]?).map ClientObj.ctorOpts =
      some (spread wCreate.2.defaults wA3) ∧
    alookup (spread wCreate.2.defaults wA3) "foo" = some (JVal.str "bar") ∧
    alookup (spread wCreate.2.defaults wA3) "region" =
      alookup wCreate.2.defaults "region" := by
  have h := factory_passes_merged_defaults_to_ctor none stEmpty wCreate.1
    (okCallState wCall3) wFactoryOpts wCreate.2 (okCallFactory wCall3) "s3" []
    (some wA3) (okCallId wCall3) noFail rfl rfl rfl rfl (by decide)
  refine ⟨rfl, rfl, h.2.1, ?_, ?_⟩
  · exact h.2.2.1 "foo" (JVal.str "bar") rfl
  · exact h.2.2.2 "region" rfl

/-- C9: on a fresh factory, calling a service's memoized constructor with no
argument and then with an empty options mapping returns two distinct
instances, even though both constructions pass exactly the factory defaults
to the underlying constructor — the absent argument and the empty mapping
produce different memoization keys. -/
theorem factory_no_arg_vs_empty_opts_distinct
    (envRegion : Option String) (st st1 st2 st3 : St)
    (copts : CreateClientsFactoryOpts) (f f2 f3 : Factory) (service : String)
    (id1 id2 : Nat)
    (hs : service ∈ knownServices)
    (hcreate : createClientFactory envRegion st copts = (st1, f))
    (h1 : callFactory noFail st1 f service none = some (.ok (st2, f2, id1)))
    (h2 : callFactory noFail st2 f2 service (some []) =
      some (.ok (st3, f3, id2))) :
    id1 ≠ id2 ∧
    (st3.heap[id1]?).map ClientObj.ctorOpts = some f.defaults ∧
    (st3.heap[id2]?).map ClientObj.ctorOpts = some f.defaults := by
  have hsnd := congrArg Prod.snd hcreate
  simp only [createClientFactory] at hsnd
  have hcaches : f.caches = knownServices.map fun s => (s, ([] : MemoCache)) := by
    rw [← hsnd]
  have hc : alookup f.caches service = some [] := by
    rw [hcaches, alookup_map_const, if_pos hs]
  obtain ⟨stx, cidx, heq1, hle1, hlen1, hop1, _, _, _⟩ :=
    callFactory_miss st1 hc (rfl : alookup ([] : MemoCache) (memoKey none) = none)
      (rfl : noFail service (spread f.defaults ((none : Option Obj).getD [])) = none)
  rw [heq1] at h1
  simp only [Option.some.injEq, Except.ok.injEq, Prod.mk.injEq] at h1
  obtain ⟨rfl, rfl, rfl⟩ := h1
  have hc2 : alookup
      ({ f with caches :=
          aupdate f.caches service (([] : MemoCache) ++ [(memoKey none, cidx)]) }
        : Factory).caches service =
      some (([] : MemoCache) ++ [(memoKey none, cidx)]) := by
    simp only
    rw [alookup_aupdate_self, hc]
    rfl
  have hm2 : alookup (([] : MemoCache) ++ [(memoKey (none : Option Obj), cidx)])
      (memoKey (some ([] : Obj))) = none := by
    rw [alookup_append_none _ (alookup_nil _), alookup_single, if_neg (by decide)]
  obtain ⟨sty, cidy, heq2, hle2, hlen2, hop2, _, _, hframe2⟩ :=
    callFactory_miss stx hc2 hm2 (noFail_none _ _)
  rw [heq2] at h2
  simp only [Option.some.injEq, Except.ok.injEq, Prod.mk.injEq] at h2
  obtain ⟨rfl, rfl, rfl⟩ := h2
  refine ⟨by omega, ?_, ?_⟩
  · rw [hframe2 cidx (by omega), hop1]
    rfl
  · rw [hop2]
    rfl

/-- C9 witness: on a concrete factory, `sqs` called with no argument and
with `{}` yields two different instances. -/
theorem factory_no_arg_vs_empty_opts_distinct_witness :
    ("sqs" ∈ knownServices) ∧
    (callFactory noFail wCreate.1 wCreate.2 "sqs" none =
      some (.ok (okCallState wCall9a, okCallFactory wCall9a, okCallId wCall9a))) ∧
    (callFactory noFail (okCallState wCall9a) (okCallFactory wCall9a) "sqs"
        (some []) =
      some (.ok (okCallState wCall9b, okCallFactory wCall9b, okCallId wCall9b))) ∧
    okCallId wCall9a ≠ okCallId wCall9b := by
  refine ⟨by decide, rfl, rfl, ?_⟩
  exact (factory_no_arg_vs_empty_opts_distinct none stEmpty wCreate.1
    (okCallState wCall9a) (okCallState wCall9b) wFactoryOpts wCreate.2
    (okCallFactory wCall9a) (okCallFactory wCall9b) "sqs" (okCallId wCall9a)
    (okCallId wCall9b) (by decide) rfl rfl rfl).1

/-- C4: the first read of a service property on a fresh cache object
constructs an instance through the factory with no per-call options (the
constructor receives exactly the factory defaults) and records it in the
`instantiated` map; any subsequent read — whatever the `instantiated` map
holds, which shows the map never short-circuits access — re-invokes the
factory and gets back the factory's memoized instance: the one recorded on
the first read, with no new construction. -/
theorem cache_read_records_and_reinvokes_factory
    (envRegion : Option String) (st st1 st2 : St)
    (copts : CreateClientsFactoryOpts) (c c2 : ClientCache) (service : String)
    (cid : Nat)
    (hcreate : createClientCache envRegion st copts = (st1, c))
    (hs : service ∈ knownServices)
    (h1 : readCache noFail st1 c service = some (.ok (st2, c2, cid))) :
    alookup c2.instantiated service = some cid ∧
    st1.heap.length ≤ cid ∧ st2.heap.length = cid + 1 ∧
    (st2.heap[cid]?).map ClientObj.ctorOpts = some c.factory.defaults ∧
    ∀ inst : List (String × Nat),
      readCache noFail st2 { factory := c2.factory, instantiated := inst }
          service =
        some (.ok (st2,
          { factory := c2.factory, instantiated := aset inst service cid },
          cid)) := by
  simp only [createClientCache] at hcreate
  rw [Prod.mk.injEq] at hcreate
  obtain ⟨hst1, hcc⟩ := hcreate
  subst hst1
  subst hcc
  have hc : alookup ((createClientFactory envRegion st copts).2).caches
      service = some [] := by
    rw [show ((createClientFactory envRegion st copts).2).caches =
        knownServices.map fun s => (s, ([] : MemoCache)) from rfl,
      alookup_map_const, if_pos hs]
  obtain ⟨stx, cidx, heq, hle, hlen, hopts, _, _, _⟩ :=
    callFactory_miss (createClientFactory envRegion st copts).1 hc
      (rfl : alookup ([] : MemoCache) (memoKey none) = none)
      (noFail_none _ _)
  simp only [readCache_eq, heq] at h1
  simp only [Option.some.injEq, Except.ok.injEq, Prod.mk.injEq] at h1
  obtain ⟨rfl, hc2eq, rfl⟩ := h1
  have hfacc2 : c2.factory.caches =
      aupdate ((createClientFactory envRegion st copts).2).caches service
        (([] : MemoCache) ++ [(memoKey none, cidx)]) := by
    rw [← hc2eq]
  have hinst : c2.instantiated = aset [] service cidx := by
    rw [← hc2eq]
  refine ⟨by rw [hinst]; exact alookup_aset_self _ _ _, hle, hlen, ?_, ?_⟩
  · exact hopts
  · intro inst
    have hc2 : alookup c2.factory.caches service =
        some (([] : MemoCache) ++ [(memoKey none, cidx)]) := by
      rw [hfacc2, alookup_aupdate_self, hc]
      rfl
    have hk2 : alookup
        (([] : MemoCache) ++ [(memoKey (none : Option Obj), cidx)])
        (memoKey (none : Option Obj)) = some cidx := by
      rw [alookup_append_none _ (alookup_nil _), alookup_single, if_pos rfl]
    have hhit := callFactory_hit noFail stx hc2 hk2
    simp only [readCache_eq, hhit]

/-- C4 witness: concrete first read of `"kms"` records the instance; a
second read through an emptied `instantiated` map returns the same
instance and state. -/
theorem cache_read_records_and_reinvokes_factory_witness :
    (createClientCache none stEmpty wFactoryOpts = (wCC.1, wCC.2)) ∧
    ("kms" ∈ knownServices) ∧
    (readCache noFail wCC.1 wCC.2 "kms" =
      some (.ok (okCacheState wRead1, okCacheObj wRead1, okCacheId wRead1))) ∧
    alookup (okCacheObj wRead1).instantiated "kms" = some (okCacheId wRead1) ∧
    readCache noFail (okCacheState wRead1)
        { factory := (okCacheObj wRead1).factory, instantiated := [] } "kms" =
      some (.ok (okCacheState wRead1,
        { factory := (okCacheObj wRead1).factory,
          instantiated := aset [] "kms" (okCacheId wRead1) },
        okCacheId wRead1)) := by
  have h := cache_read_records_and_reinvokes_factory none stEmpty wCC.1
    (okCacheState wRead1) wFactoryOpts wCC.2 (okCacheObj wRead1) "kms"
    (okCacheId wRead1) rfl (by decide) rfl
  exact ⟨rfl, by decide, rfl, h.1, h.2.2.2.2 []⟩

/-- C10: `createClientCache` constructs no client: immediately after it
returns, the heap is unchanged and the `instantiated` map is empty; for
every known service, the first read of the service property is what
allocates the instance (a fresh heap index). -/
theorem createClientCache_is_lazy
    (envRegion : Option String) (st st1 : St) (copts : CreateClientsFactoryOpts)
    (c : ClientCache)
    (hcreate : createClientCache envRegion st copts = (st1, c)) :
    st1.heap = st.heap ∧ c.instantiated = [] ∧
    ∀ service, service ∈ knownServices →
      ∀ st2 c2 cid, readCache noFail st1 c service = some (.ok (st2, c2, cid)) →
        st1.heap.length ≤ cid ∧ st2.heap.length = cid + 1 := by
  simp only [createClientCache] at hcreate
  rw [Prod.mk.injEq] at hcreate
  obtain ⟨hst1, hcc⟩ := hcreate
  subst hst1
  subst hcc
  refine ⟨rfl, rfl, ?_⟩
  intro service hs st2 c2 cid hread
  have hc : alookup ((createClientFactory envRegion st copts).2).caches
      service = some [] := by
    rw [show ((createClientFactory envRegion st copts).2).caches =
        knownServices.map fun s => (s, ([] : MemoCache)) from rfl,
      alookup_map_const, if_pos hs]
  obtain ⟨stx, cidx, heq, hle, hlen, _, _, _, _⟩ :=
    callFactory_miss (createClientFactory envRegion st copts).1 hc
      (rfl : alookup ([] : MemoCache) (memoKey none) = none)
      (noFail_none _ _)
  simp only [readCache_eq, heq] at hread
  simp only [Option.some.injEq, Except.ok.injEq, Prod.mk.injEq] at hread
  obtain ⟨rfl, hc2eq, rfl⟩ := hread
  exact ⟨hle, hlen⟩

/-- C10 witness: a concrete cache creation touches no heap and records
nothing; the first read of `"kms"` allocates the instance. -/
theorem createClientCache_is_lazy_witness :
    (createClientCache none stEmpty wFactoryOpts = (wCC.1, wCC.2)) ∧
    wCC.1.heap = stEmpty.heap ∧ wCC.2.instantiated = [] ∧
    (readCache noFail wCC.1 wCC.2 "kms" =
      some (.ok (okCacheState wRead1, okCacheObj wRead1, okCacheId wRead1))) ∧
    (wCC.1.heap.length ≤ okCacheId wRead1 ∧
      (okCacheState wRead1).heap.length = okCacheId wRead1 + 1) := by
  have h := createClientCache_is_lazy none stEmpty wCC.1 wFactoryOpts wCC.2 rfl
  exact ⟨rfl, h.1, h.2.1, rfl,
    h.2.2 "kms" (by decide) (okCacheState wRead1) (okCacheObj wRead1)
      (okCacheId wRead1) rfl⟩

end AwsUtils
